import Mathlib

/-!
Shallow embedding of `repos.py` (github_search): a batch tool that walks a
paginated search API and exports repository records to CSV.

Conventions of the embedding:
* Python strings are Lean `String`s; most reasoning happens on their `.data`
  (`List Char`).
* Python `None` for an optional argument is `Option.none`.
* Fallible Python code (code that can raise) returns `Except PyErr _` or
  `Option _`; `Except.error` / `none` model a raised exception propagating to
  the caller.
* Machine integers are `Int` (Python ints are unbounded, so no modular
  wrap-around is needed).
* The HTTP world is a pure environment `Env` mapping (url, params) to the
  response the server would give; `requests.get` is modelled as consulting it.
-/

namespace GithubSearch

/-- Python exceptions that the code in `repos.py` can raise, abstracted to the
points where they arise. `nameError` is the `NameError` raised by
`int(time.time())` in `get_repos` (the module only does `from time import
sleep`, so the name `time` is unbound). `httpError` is
`requests.raise_for_status`'s `HTTPError`. `attributeError` is the
`AttributeError` raised by `.groups()` on a failed `re.search` (returning
`None`) in `parse_link_header`. `valueError` is `datetime.strptime`'s
`ValueError` on a malformed timestamp. `outOfFuel` is not a Python error: it
marks exhaustion of the explicit fuel that stands in for the unbounded
`while` loop of `pager`. -/
inductive PyErr where
  | nameError : PyErr
  | httpError : Nat → PyErr
  | attributeError : PyErr
  | valueError : PyErr
  | outOfFuel : PyErr
deriving DecidableEq, Repr

/-- One repository record, with exactly the fields `repos.py` reads from a
search-result item: `full_name`, `description` (nullable), `stargazers_count`,
`language` (nullable), `updated_at`, `html_url`. -/
structure Repo where
  full_name : String
  description : Option String
  stargazers_count : Int
  language : Option String
  updated_at : String
  html_url : String
deriving DecidableEq, Repr

/-- Python string slice `s[:k]` on the character list of `s`, for an arbitrary
integer bound `k`: a negative bound counts from the end (clamped at 0), a
bound past the end is clamped to the whole list. -/
def pyPrefixList (l : List Char) (k : Int) : List Char :=
  l.take (if k < 0 then ((l.length : Int) + k).toNat else k.toNat)

/-- `truncate_description(description, max_length=80)` from `repos.py`:

    if description and len(description) > max_length:
        return description[: max_length - 3] + '...'
    return description if description else ''

Python truthiness of a string is non-emptiness; `None` and `''` are falsy. -/
def truncate_description (description : Option String) (max_length : Int := 80) : String :=
  match description with
  | none => ""
  | some s =>
    if s.data ≠ [] ∧ (max_length < (s.data.length : Int)) then
      String.mk (pyPrefixList s.data (max_length - 3) ++ ['.', '.', '.'])
    else if s.data ≠ [] then s else ""

/-- Python `s.split(', ')` on character lists, specialised to the two-character
separator used in `parse_link_header`: leftmost, non-overlapping occurrences of
`", "` split the list; `''.split(', ') == ['']` corresponds to
`splitCS [] = [[]]`. -/
def splitCS : List Char → List (List Char)
  | [] => [[]]
  | [c] => [[c]]
  | c :: d :: rest =>
    if c = ',' ∧ d = ' ' then [] :: splitCS rest
    else
      match splitCS (d :: rest) with
      | [] => [[c]]
      | p :: ps => (c :: p) :: ps

/-- Index of the last occurrence of `c` in `l`, if any. Used to model the
greedy `(.*)` before the final literal `"` of the link regex. -/
def lastIdxOf (c : Char) : List Char → Option Nat
  | [] => none
  | a :: rest =>
    match lastIdxOf c rest with
    | some i => some (i + 1)
    | none => if a = c then some 0 else none

/-- The literal `>; rel="` between the two capture groups of the regex
`<(.*)>; rel="(.*)"` in `parse_link_header`. -/
def relLit : List Char := ['>', ';', ' ', 'r', 'e', 'l', '=', '"']

/-- Greedy match of `(.*)"` against `l` (the text after the literal
`>; rel="`): the second capture group is everything up to the last `"` in the
maximal newline-free prefix of `l` (`.` in Python `re` does not match a
newline), or no match if that prefix has no `"`. -/
def matchB (l : List Char) : Option (List Char) :=
  let pfx := l.takeWhile (fun c => c ≠ '\n')
  (lastIdxOf '"' pfx).map (fun k => pfx.take k)

/-- Candidate lengths for the first (greedy) capture group when matching
`(.*)>; rel="(.*)"` against `l` (the text after the opening `<`): lengths `q`
such that the first `q` characters are newline-free, the literal `>; rel="`
follows, and the rest still matches `(.*)"`. -/
def candQs (l : List Char) : List Nat :=
  (List.range ((l.takeWhile (fun c => c ≠ '\n')).length + 1)).filter
    (fun q => relLit.isPrefixOf (l.drop q) && (matchB (l.drop (q + relLit.length))).isSome)

/-- Backtracking match of the whole regex `<(.*)>; rel="(.*)"` anchored at the
start of `l`: `l` must begin with `<`; the first group is greedy (largest
candidate length), then the second. Returns the two capture groups. -/
def matchLinkAt (l : List Char) : Option (List Char × List Char) :=
  match l with
  | '<' :: rest =>
    (candQs rest).getLast?.bind (fun q =>
      (matchB (rest.drop (q + relLit.length))).map (fun b => (rest.take q, b)))
  | _ => none

/-- `re.search(r'<(.*)>; rel="(.*)"', link)`: the leftmost start position
wins; a match can only start at a `<`. Returns the groups `(url, rel)`, or
`none` when the regex does not match anywhere (in Python, `.groups()` on that
`None` then raises `AttributeError`). -/
def searchLink : List Char → Option (List Char × List Char)
  | [] => none
  | c :: rest =>
    match matchLinkAt (c :: rest) with
    | some g => some g
    | none => searchLink rest

/-- Python `dict` assignment `links[rel] = url` on an insertion-ordered
association list: overwriting an existing key keeps its position, a new key is
appended. -/
def dictInsert (m : List (List Char × List Char)) (k v : List Char) :
    List (List Char × List Char) :=
  if m.any (fun p => p.1 = k) then
    m.map (fun p => if p.1 = k then (k, v) else p)
  else m ++ [(k, v)]

/-- Python `dict.get(key)` on the insertion-ordered association list. -/
def dictGet (m : List (List Char × List Char)) (k : List Char) :
    Option (List Char) :=
  (m.find? (fun p => p.1 = k)).map (fun p => p.2)

/-- The loop body of `parse_link_header`: process each split entry in order,
binding `links[rel] = url`; a non-matching entry raises (modelled as `none`). -/
def parseEntries : List (List Char) → List (List Char × List Char) →
    Option (List (List Char × List Char))
  | [], m => some m
  | e :: es, m =>
    match searchLink e with
    | none => none
    | some (u, r) => parseEntries es (dictInsert m r u)

/-- `parse_link_header(link_header)` from `repos.py`:

    links = {}
    if link_header:
        for link in link_header.split(', '):
            url, rel = re.search(r'<(.*)>; rel="(.*)"', link).groups()
            links[rel] = url
    return links

`none` input models Python `None`; both `None` and `''` are falsy, yielding
the empty mapping. A `none` result models the `AttributeError` raised when an
entry does not match the regex. -/
def parse_link_header (link_header : Option String) :
    Option (List (List Char × List Char)) :=
  match link_header with
  | none => some []
  | some s => if s.data.isEmpty then some [] else parseEntries (splitCS s.data) []

/-- One HTTP response, with the parts of it `repos.py` reads: the status code,
the `x-ratelimit-reset` header as read by
`int(response.headers.get('x-ratelimit-reset', 0))` (0 when absent), the
`Link` header as read by `response.headers.get('Link', '')` (`""` when
absent), and the JSON body's `total_count` and `items`. -/
structure HttpResponse where
  status : Nat
  ratelimitReset : Int
  link : String
  total_count : Nat
  items : List Repo
deriving DecidableEq, Repr

/-- The HTTP world: what the server answers to `requests.get(url, params=p)`.
A pure function, since nothing in the claims depends on the server changing
its answers between calls. -/
def Env : Type := String → Option (List (String × String)) → HttpResponse

/-- `get_repos(url, params=None)` from `repos.py`:

    while True:
        response = requests.get(url, params=params, headers=headers)
        if response.status_code == 429 or response.status_code == 403:
            reset_time = int(response.headers.get('x-ratelimit-reset', 0)) - int(time.time())
            print(...); sleep(reset_time + 1); continue
        response.raise_for_status()
        return response

The module only does `from time import sleep`, so the name `time` is unbound
and `int(time.time())` raises `NameError` on the first 429/403 response,
before `sleep` is reached — the retry loop never actually loops. Otherwise
`raise_for_status` raises `HTTPError` exactly for statuses 400–599 and any
other response is returned unchanged. -/
def get_repos (env : Env) (url : String)
    (params : Option (List (String × String)) := none) : Except PyErr HttpResponse :=
  let response := env url params
  if response.status = 429 ∨ response.status = 403 then
    .error .nameError
  else if 400 ≤ response.status ∧ response.status < 600 then
    .error (.httpError response.status)
  else
    .ok response

/-- The key `"next"` looked up in the parsed `Link` mapping. -/
def nextKey : List Char := ['n', 'e', 'x', 't']

/-- `pager(url, params)` from `repos.py`, as the list of records the generator
yields before terminating:

    while url:
        response = get_repos(url, params)
        data = response.json()
        ...
        yield from data['items']
        links = parse_link_header(response.headers.get('Link', ''))
        url = links.get('next')
        params = None  # new url contains query parameters

The guard `while url:` tests Python truthiness: the loop exits both when
`url` is `None` (no `next` relation in the `Link` header) and when it is the
empty string (a header `<>; rel="next"` makes `links.get('next')` the falsy
`''`), without fetching. `fuel` bounds the unbounded `while`; every theorem
supplies enough fuel for the chain at hand. An exception raised
mid-iteration (fetch failure or malformed `Link` header) is the whole
result, as it is for `list(pager(...))` in `main`, which discards the
partially-consumed items. -/
def pagerLoop (env : Env) :
    Nat → Option String → Option (List (String × String)) → Except PyErr (List Repo)
  | _, none, _ => .ok []
  | 0, some url, _ => if url.data.isEmpty then .ok [] else .error .outOfFuel
  | fuel + 1, some url, params =>
    if url.data.isEmpty then .ok []
    else
      match get_repos env url params with
      | .error e => .error e
      | .ok response =>
        match parse_link_header (some response.link) with
        | none => .error .attributeError
        | some links =>
          match pagerLoop env fuel ((dictGet links nextKey).map String.mk) none with
          | .error e => .error e
          | .ok tail => .ok (response.items ++ tail)

/-- A parsed `datetime` as produced by
`datetime.strptime(x, '%Y-%m-%dT%H:%M:%SZ')`; comparison of `datetime`
objects is lexicographic on these fields. -/
structure DateTime where
  year : Nat
  month : Nat
  day : Nat
  hour : Nat
  minute : Nat
  second : Nat
deriving DecidableEq, Repr

/-- Days in a month, as validated by the `datetime` constructor (proleptic
Gregorian calendar). -/
def daysInMonth (year month : Nat) : Nat :=
  if month = 2 then
    if year % 4 = 0 ∧ (year % 100 ≠ 0 ∨ year % 400 = 0) then 29 else 28
  else if month = 4 ∨ month = 6 ∨ month = 9 ∨ month = 11 then 30
  else 31

/-- Numeric value of a decimal digit character. -/
def digitVal (c : Char) : Nat := c.toNat - 48

/-- `datetime.strptime(s, '%Y-%m-%dT%H:%M:%SZ')` on the zero-padded timestamps
the API emits (`YYYY-MM-DDTHH:MM:SSZ`): four year digits, two digits for each
other field, the literal separators, and the range checks `strptime` and the
`datetime` constructor perform. `none` models the `ValueError` raised on any
other string. -/
def parseTs (s : String) : Option DateTime :=
  match s.data with
  | [y1, y2, y3, y4, '-', m1, m2, '-', d1, d2, 'T', h1, h2, ':', n1, n2, ':', s1, s2, 'Z'] =>
    if y1.isDigit ∧ y2.isDigit ∧ y3.isDigit ∧ y4.isDigit ∧ m1.isDigit ∧ m2.isDigit
        ∧ d1.isDigit ∧ d2.isDigit ∧ h1.isDigit ∧ h2.isDigit ∧ n1.isDigit ∧ n2.isDigit
        ∧ s1.isDigit ∧ s2.isDigit then
      let year := ((digitVal y1 * 10 + digitVal y2) * 10 + digitVal y3) * 10 + digitVal y4
      let month := digitVal m1 * 10 + digitVal m2
      let day := digitVal d1 * 10 + digitVal d2
      let hour := digitVal h1 * 10 + digitVal h2
      let minute := digitVal n1 * 10 + digitVal n2
      let second := digitVal s1 * 10 + digitVal s2
      if 1 ≤ year ∧ 1 ≤ month ∧ month ≤ 12 ∧ 1 ≤ day ∧ day ≤ daysInMonth year month
          ∧ hour ≤ 23 ∧ minute ≤ 59 ∧ second ≤ 59 then
        some ⟨year, month, day, hour, minute, second⟩
      else none
    else none
  | _ => none

/-- `datetime` strict comparison: lexicographic on the six fields. -/
def dtLt (a b : DateTime) : Bool :=
  decide (a.year < b.year) || (decide (a.year = b.year) &&
    (decide (a.month < b.month) || (decide (a.month = b.month) &&
      (decide (a.day < b.day) || (decide (a.day = b.day) &&
        (decide (a.hour < b.hour) || (decide (a.hour = b.hour) &&
          (decide (a.minute < b.minute) || (decide (a.minute = b.minute) &&
            decide (a.second < b.second))))))))))

/-- Python `<` on the sort key `(-stargazers_count, parsed updated_at)`:
lexicographic tuple comparison. -/
def keyLt (a b : Int × DateTime) : Bool :=
  decide (a.1 < b.1) || (decide (a.1 = b.1) && dtLt a.2 b.2)

/-- Insert one decorated record into a descending-sorted list, after every
element whose key is not strictly smaller: combined with a left-to-right fold
this is exactly CPython's `sorted(..., key=..., reverse=True)` — descending
by key, and records with equal keys retain their input order (stability). -/
def insertDesc (x : (Int × DateTime) × Repo) :
    List ((Int × DateTime) × Repo) → List ((Int × DateTime) × Repo)
  | [] => [x]
  | y :: rest => if keyLt y.1 x.1 then x :: y :: rest else y :: insertDesc x rest

/-- `sorted(repos, key=lambda x: (-x['stargazers_count'], strptime(...)),
reverse=True)` on key-decorated records. -/
def sortDesc (l : List ((Int × DateTime) × Repo)) : List ((Int × DateTime) × Repo) :=
  l.foldl (fun acc x => insertDesc x acc) []

/-- `sorted` computes the key of every element, in list order, before
comparing; the first unparseable `updated_at` raises `ValueError`. -/
def computeKeys (repos : List Repo) : Option (List ((Int × DateTime) × Repo)) :=
  repos.mapM (fun r => (parseTs r.updated_at).map
    (fun t => ((-r.stargazers_count, t), r)))

/-- The header row `write_csv` emits first. -/
def headerRow : List String :=
  ["full_name", "description", "stargazers_count", "language", "updated_at", "url"]

/-- One data row of `write_csv`: `csv.writer` stringifies the integer star
count and writes `None` (here: `language = none`) as the empty string. -/
def csvRow (r : Repo) : List String :=
  [r.full_name, truncate_description r.description, toString r.stargazers_count,
   r.language.getD "", r.updated_at, r.html_url]

/-- `write_csv(repos, filename)` from `repos.py`, as the list of rows written:
the header row, then one row per record in sorted order. An unparseable
`updated_at` raises `ValueError` out of `sorted`; the model collapses the
file the exception leaves behind (header only) into the error, since no
claim concerns partially-written files. -/
def write_csv (repos : List Repo) : Except PyErr (List (List String)) :=
  match computeKeys repos with
  | none => .error .valueError
  | some keyed => .ok (headerRow :: (sortDesc keyed).map (fun kr => csvRow kr.2))

/-- Default query from `config('QUERY', default=...)`. -/
def QUERY : String := "quasar OR quasar-framework in:topics"

/-- `BASE_URL + ENDPOINT` with the default endpoint. -/
def searchURL : String := "https://api.github.com/search/repositories"

/-- The `params` dict `main` builds (default `PER_PAGE`). -/
def mainParams : List (String × String) :=
  [("q", QUERY), ("per_page", "100"), ("sort", "stars"), ("order", "desc")]

/-- `main()` from `repos.py` at the default configuration:

    repos = list(pager(URL, params))
    write_csv(repos, CSV_FILE)

`.ok rows` means the run completed and the output file was written with
exactly `rows`; `.error e` means the run aborted with exception `e` before
`write_csv` was called (or, for `valueError`, inside it). -/
def main (env : Env) (fuel : Nat) : Except PyErr (List (List String)) :=
  match pagerLoop env fuel (some searchURL) (some mainParams) with
  | .error e => .error e
  | .ok repos => write_csv repos

/-! ## Concrete fixtures -/

/-- The low-star record from the repository's own integration test. -/
def repoLow : Repo :=
  ⟨"test/repo1", some "Test repo 1", 10, some "Python",
   "2023-01-01T00:00:00Z", "https://github.com/test/repo1"⟩

/-- The high-star record from the repository's own integration test. -/
def repoHigh : Repo :=
  ⟨"test/repo2", some "Test repo 2", 20, some "JavaScript",
   "2023-01-02T00:00:00Z", "https://github.com/test/repo2"⟩

/-- Two records fully tied on the sort key (equal stars, equal timestamp). -/
def tiedA : Repo := ⟨"a/one", none, 5, none, "2023-01-01T00:00:00Z", "https://github.com/a/one"⟩

/-- Second record of the fully tied pair. -/
def tiedB : Repo := ⟨"b/two", none, 5, none, "2023-01-01T00:00:00Z", "https://github.com/b/two"⟩

/-- A server that always answers 403 (rate limited). -/
def throttledEnv : Env := fun _ _ => ⟨403, 1999999999, "", 0, []⟩

/-- A server that always answers 429. -/
def throttledEnv429 : Env := fun _ _ => ⟨429, 1999999999, "", 0, []⟩

/-- A server that always answers 304 Not Modified. -/
def env304 : Env := fun _ _ => ⟨304, 0, "", 0, []⟩

/-- A server that always answers 500. -/
def env500 : Env := fun _ _ => ⟨500, 0, "", 0, []⟩

/-- A server that always answers 200 with an empty page and no `Link`. -/
def env200 : Env := fun _ _ => ⟨200, 0, "", 0, []⟩

/-- A server answering one successful single-record page with no `Link`. -/
def okEnv : Env := fun _ _ => ⟨200, 0, "", 1, [tiedA]⟩

/-! ## C9: truncation at or below the limit, and on absent input -/

/-- C9: for every text `t` and limit `n` with `n ≥ length t`,
`truncate_description (some t) n` returns `t` unchanged, and for absent input
`truncate_description none n = ""` for every `n`. -/
theorem truncate_small_input :
    (∀ (t : String) (n : Int), (t.data.length : Int) ≤ n →
      truncate_description (some t) n = t) ∧
    ∀ n : Int, truncate_description none n = "" := by
  constructor
  · intro t n h
    obtain ⟨l⟩ := t
    have hcond : ¬((String.mk l).data ≠ [] ∧ n < ((String.mk l).data.length : Int)) := by
      rintro ⟨-, hlt⟩
      exact absurd h (not_le.mpr hlt)
    simp only [truncate_description, if_neg hcond]
    by_cases hl : (String.mk l).data ≠ []
    · rw [if_pos hl]
    · rw [if_neg hl]
      simp only [ne_eq, not_not] at hl
      have : l = [] := hl
      subst this
      rfl
  · intro n
    rfl

/-- Witness for C9 at concrete inputs. -/
theorem truncate_small_input_witness :
    truncate_description (some "abc") 5 = "abc" ∧ truncate_description none (-7) = "" :=
  ⟨truncate_small_input.1 "abc" 5 (by decide), truncate_small_input.2 (-7)⟩

/-! ## C3: truncation above the limit -/

/-- Counterexample to C3 as stated: at `t = "ab"`, `n = 1` we have
`n < length t`, yet the result is the bare ellipsis `"..."` of length 3, not
of length `n = 1` (the Python slice `description[: max_length - 3]` has a
negative bound for `n < 3` and counts from the end of the string). -/
theorem truncate_small_limit_cex :
    ((1 : Int) < (("ab" : String).data.length : Int)) ∧
    truncate_description (some "ab") 1 = "..." ∧
    (truncate_description (some "ab") 1).data.length ≠ 1 := by decide

/-- C3 amended: for every text `t` and limit `n` with `3 ≤ n < length t`,
`truncate_description (some t) n` has length exactly `n` and its last three
characters are the ellipsis marker `...`. -/
theorem truncate_over_limit_shape (t : String) (n : Int) (h3 : 3 ≤ n)
    (hlt : n < (t.data.length : Int)) :
    (truncate_description (some t) n).data.length = n.toNat ∧
    (truncate_description (some t) n).data.drop (n.toNat - 3) = ['.', '.', '.'] := by
  obtain ⟨l⟩ := t
  have hlt' : n < (l.length : Int) := hlt
  have hlen : n.toNat ≤ l.length := by omega
  have hne : (String.mk l).data ≠ [] := by
    intro h
    have h' : l = [] := h
    subst h'
    simp only [List.length_nil] at hlt'
    omega
  simp only [truncate_description, if_pos (And.intro hne hlt)]
  have hk : ¬(n - 3 < 0) := by omega
  have hpfx : pyPrefixList l (n - 3) = l.take (n.toNat - 3) := by
    simp only [pyPrefixList, if_neg hk]
    congr 1
    omega
  have htake : (l.take (n.toNat - 3)).length = n.toNat - 3 := by
    rw [List.length_take]
    omega
  constructor
  · show (pyPrefixList l (n - 3) ++ ['.', '.', '.']).length = n.toNat
    rw [hpfx, List.length_append, htake]
    show n.toNat - 3 + 3 = n.toNat
    omega
  · show (pyPrefixList l (n - 3) ++ ['.', '.', '.']).drop (n.toNat - 3) = ['.', '.', '.']
    rw [hpfx]
    have hd := List.drop_left (List.take (n.toNat - 3) l) ['.', '.', '.']
    rwa [htake] at hd

/-- Witness for the amended C3 at a concrete input. -/
theorem truncate_over_limit_shape_witness :
    (truncate_description (some "hello world") 5).data.length = 5 ∧
    (truncate_description (some "hello world") 5).data.drop 2 = ['.', '.', '.'] :=
  truncate_over_limit_shape "hello world" 5 (by decide) (by decide)

/-! ## C2: throttling (429/403) handling -/

/-- C2 is a code bug: on a 429 or 403 response `get_repos` evaluates
`int(time.time())`, but the module only does `from time import sleep`, so the
name `time` is unbound and a `NameError` surfaces to the caller — the code
never sleeps nor retries. Evaluated here at throttling responses. -/
theorem get_repos_throttle_raises_nameError :
    get_repos throttledEnv searchURL (some mainParams) = .error .nameError ∧
    get_repos throttledEnv429 searchURL (some mainParams) = .error .nameError :=
  ⟨rfl, rfl⟩

/-! ## C4: non-throttling status dispatch -/

/-- Counterexample to C4 as stated: a 304 response is neither 2xx nor 429/403,
yet `raise_for_status` raises only for statuses 400–599, so `get_repos`
returns the 304 response unchanged instead of failing. -/
theorem get_repos_304_cex :
    (env304 searchURL none).status = 304 ∧
    get_repos env304 searchURL none = .ok (env304 searchURL none) :=
  ⟨rfl, rfl⟩

/-- C4 amended: for every response whose status is in 400–599 and is not
429/403, `get_repos` fails immediately with an `HTTPError`; for every 2xx
response it returns the response unchanged. -/
theorem get_repos_status_dispatch (env : Env) (url : String)
    (params : Option (List (String × String))) :
    ((env url params).status ≠ 429 → (env url params).status ≠ 403 →
      400 ≤ (env url params).status → (env url params).status < 600 →
      get_repos env url params = .error (.httpError (env url params).status)) ∧
    (200 ≤ (env url params).status → (env url params).status < 300 →
      get_repos env url params = .ok (env url params)) := by
  constructor
  · intro h1 h2 h3 h4
    simp only [get_repos]
    rw [if_neg (by rintro (h | h) <;> simp_all), if_pos (And.intro h3 h4)]
  · intro h1 h2
    simp only [get_repos]
    rw [if_neg (by rintro (h | h) <;> omega), if_neg (by rintro ⟨h, -⟩; omega)]

/-- Witness for the amended C4 at concrete 500 and 200 responses. -/
theorem get_repos_status_dispatch_witness :
    get_repos env500 searchURL none = .error (.httpError 500) ∧
    get_repos env200 searchURL none = .ok (env200 searchURL none) :=
  ⟨(get_repos_status_dispatch env500 searchURL none).1
      (by decide) (by decide) (by decide) (by decide),
   (get_repos_status_dispatch env200 searchURL none).2 (by decide) (by decide)⟩

/-! ## C1: exporter row order -/

/-- C1 is a code bug: `sorted(..., key=lambda x: (-stars, ts), reverse=True)`
nets to stars *ascending* (the negation and the reversal cancel), so
`write_csv` puts the lowest-star record first. On the records of the
repository's own integration test (which asserts the 20-star row comes
first), the 10-star row is emitted first regardless of input order. -/
theorem write_csv_lowest_stars_first :
    write_csv [repoLow, repoHigh] = .ok [headerRow, csvRow repoLow, csvRow repoHigh] ∧
    write_csv [repoHigh, repoLow] = .ok [headerRow, csvRow repoLow, csvRow repoHigh] ∧
    repoLow.stargazers_count = 10 ∧ repoHigh.stargazers_count = 20 :=
  ⟨rfl, rfl, rfl, rfl⟩

/-! ## C10: order of fully tied records -/

/-- Counterexample to C10 as stated: two records fully tied on the sort key
are emitted in their *input* order (CPython's `reverse=True` sort is stable),
not in reverse input order. -/
theorem write_csv_tie_order_cex :
    write_csv [tiedA, tiedB] = .ok [headerRow, csvRow tiedA, csvRow tiedB] ∧
    csvRow tiedA ≠ csvRow tiedB ∧
    tiedA.stargazers_count = tiedB.stargazers_count ∧
    tiedA.updated_at = tiedB.updated_at := by
  refine ⟨rfl, by decide, rfl, rfl⟩

/-- `keyLt` is irreflexive: a key is not strictly below itself. -/
theorem keyLt_irrefl (k : Int × DateTime) : keyLt k k = false := by
  simp [keyLt, dtLt]

/-- C10 amended: for every two records with equal `stargazers_count` and equal
`updated_at`, `write_csv` emits them in their input order — the sort under
`reverse=True` is stable, so the output for fully tied records is
input-order dependent (not permutation-invariant), but ties keep, not
reverse, the input order. -/
theorem write_csv_tie_stable (a b : Repo) (t : DateTime)
    (hstars : a.stargazers_count = b.stargazers_count)
    (hts : a.updated_at = b.updated_at)
    (hparse : parseTs a.updated_at = some t) :
    write_csv [a, b] = .ok [headerRow, csvRow a, csvRow b] := by
  have hb : parseTs b.updated_at = some t := hts ▸ hparse
  have hkey : (-b.stargazers_count, t) = (-a.stargazers_count, t) := by rw [hstars]
  simp only [write_csv, computeKeys, List.mapM_cons, List.mapM_nil, hparse, hb,
    Option.map_some', Option.pure_def, Option.bind_eq_bind, Option.some_bind,
    sortDesc, List.foldl, insertDesc, hkey, keyLt_irrefl, Bool.false_eq_true,
    if_false, List.map_cons, List.map_nil]

/-- Witness for the amended C10 at the concrete tied pair. -/
theorem write_csv_tie_stable_witness :
    write_csv [tiedA, tiedB] = .ok [headerRow, csvRow tiedA, csvRow tiedB] :=
  write_csv_tie_stable tiedA tiedB ⟨2023, 1, 1, 0, 0, 0⟩ rfl rfl rfl

/-! ## C7: the output file is written only after a complete fetch -/

/-- C7: a fatal error at any point of pagination aborts `main` with that
error and the output file is never written; conversely a written file can
only come from a completed pagination whose full result set was exported. -/
theorem main_write_gated (env : Env) (fuel : Nat) :
    (∀ e : PyErr, pagerLoop env fuel (some searchURL) (some mainParams) = .error e →
      main env fuel = .error e) ∧
    (∀ rows, main env fuel = .ok rows →
      ∃ repos, pagerLoop env fuel (some searchURL) (some mainParams) = .ok repos ∧
        write_csv repos = .ok rows) := by
  constructor
  · intro e h
    unfold main
    rw [h]
  · intro rows h
    unfold main at h
    cases hp : pagerLoop env fuel (some searchURL) (some mainParams) with
    | error e => rw [hp] at h; cases h
    | ok repos => rw [hp] at h; exact ⟨repos, rfl, h⟩

/-- Witness for C7: a failing fetch aborts the run; a successful single-page
run writes exactly the full result set. -/
theorem main_write_gated_witness :
    main env500 1 = .error (.httpError 500) ∧
    ∃ repos, pagerLoop okEnv 1 (some searchURL) (some mainParams) = .ok repos ∧
      write_csv repos = .ok [headerRow, csvRow tiedA] :=
  ⟨(main_write_gated env500 1).1 (.httpError 500) rfl,
   (main_write_gated okEnv 1).2 [headerRow, csvRow tiedA] rfl⟩

/-! ## C8: malformed link-header entries are fatal -/

/-- Processing the entries stops with the raised error as soon as any entry
fails to match the regex. -/
theorem parseEntries_fail (es : List (List Char)) (m : List (List Char × List Char))
    (h : ∃ e ∈ es, searchLink e = none) : parseEntries es m = none := by
  induction es generalizing m with
  | nil =>
    obtain ⟨e, he, -⟩ := h
    exact absurd he (List.not_mem_nil e)
  | cons e0 es ih =>
    obtain ⟨e, he, hs⟩ := h
    cases h0 : searchLink e0 with
    | none => simp [parseEntries, h0]
    | some g =>
      obtain ⟨u, r⟩ := g
      rcases List.mem_cons.mp he with rfl | hmem
      · rw [h0] at hs; cases hs
      · simp only [parseEntries, h0]
        exact ih _ ⟨e, hmem, hs⟩

/-- C8: for every non-empty link header containing an entry that does not
match the `<url>; rel="name"` pattern, `parse_link_header` raises (the
`AttributeError` from `.groups()` on a failed `re.search`) instead of
skipping the entry or returning a partial mapping. -/
theorem parse_link_header_malformed_fatal (s : String) (hne : s.data ≠ [])
    (h : ∃ e ∈ splitCS s.data, searchLink e = none) :
    parse_link_header (some s) = none := by
  simp only [parse_link_header]
  rw [if_neg (by simpa using hne)]
  exact parseEntries_fail _ _ h

/-- Witness for C8 at a concrete header with one well-formed and one
malformed entry. -/
theorem parse_link_header_malformed_fatal_witness :
    parse_link_header (some "<https://a/p2>; rel=\"next\", oops") = none :=
  parse_link_header_malformed_fatal _ (by decide) ⟨"oops".data, by decide, by decide⟩

/-! ## C6: pagination emits every page's items in order -/

/-- A finite chain of pages: each listed URL is truthy (non-empty — a falsy
`''` cursor would stop `while url:` before any fetch) and, queried with the
given parameters (the initial ones for the first page, `None` afterwards),
answers with a successful (2xx) response whose parsed `Link` header resolves
`next` to the following listed URL — and to nothing after the last page. -/
def pageChain (env : Env) :
    Option (List (String × String)) → List (String × HttpResponse) → Prop
  | _, [] => True
  | params, (url, response) :: rest =>
    url.data ≠ [] ∧
    env url params = response ∧
    200 ≤ response.status ∧ response.status < 300 ∧
    (∃ links, parse_link_header (some response.link) = some links ∧
      (dictGet links nextKey).map String.mk = rest.head?.map Prod.fst) ∧
    pageChain env none rest

/-- C6: over every finite chain of pages linked by `next` relations, `pager`
emits exactly the concatenation of the pages' item lists, page by page (so
the emitted count is the sum of the per-page item counts); the query
parameters are consulted only on the first fetch and pagination terminates
when a page has no `next` relation. -/
theorem pager_chain_emits_concat (env : Env) (params : Option (List (String × String)))
    (pages : List (String × HttpResponse)) (h : pageChain env params pages)
    (fuel : Nat) (hf : pages.length ≤ fuel) :
    pagerLoop env fuel ((pages.head?).map Prod.fst) params =
      .ok (pages.flatMap (fun p => p.2.items)) ∧
    (pages.flatMap (fun p => p.2.items)).length =
      (pages.map (fun p => p.2.items.length)).sum := by
  refine ⟨?_, by simp [List.length_flatMap, Function.comp_def]⟩
  induction pages generalizing params fuel with
  | nil => cases fuel <;> rfl
  | cons page rest ih =>
    obtain ⟨url, response⟩ := page
    obtain ⟨hurl, henv, h2, h3, ⟨links, hlinks, hnext⟩, hchain⟩ := h
    cases fuel with
    | zero => simp at hf
    | succ fuel =>
      have hget : get_repos env url params = .ok response := by
        simp only [get_repos, henv]
        rw [if_neg (by omega), if_neg (by rintro ⟨h400, -⟩; omega)]
      have hrest : rest.length ≤ fuel := by
        simp only [List.length_cons] at hf
        omega
      have hrec := ih none hchain fuel hrest
      have hfalse : ¬ url.data.isEmpty = true := by simpa using hurl
      simp only [List.head?_cons, Option.map_some', pagerLoop, if_neg hfalse, hget,
        hlinks, hnext, hrec, List.flatMap_cons]

/-- URL of the second page in the concrete two-page fixture. -/
def pageTwoUrl : String := "https://api.github.com/search/repositories?q=x&page=2"

/-- First page of the fixture: two records and a `next` link. -/
def pageOne : HttpResponse :=
  ⟨200, 0, "<https://api.github.com/search/repositories?q=x&page=2>; rel=\"next\"", 3,
   [repoLow, repoHigh]⟩

/-- Second page of the fixture: one record, no `Link` header. -/
def pageTwo : HttpResponse := ⟨200, 0, "", 3, [tiedA]⟩

/-- A server serving the two-page fixture. -/
def chainEnv : Env := fun url _ => if url = pageTwoUrl then pageTwo else pageOne

/-- Witness for C6 on the concrete two-page chain: three records, in page
order. -/
theorem pager_chain_emits_concat_witness :
    pagerLoop chainEnv 2 (some searchURL) (some mainParams) =
      .ok [repoLow, repoHigh, tiedA] := by
  have h := pager_chain_emits_concat chainEnv (some mainParams)
    [(searchURL, pageOne), (pageTwoUrl, pageTwo)]
    ⟨by decide, rfl, by decide, by decide, ⟨[(nextKey, pageTwoUrl.data)], rfl, rfl⟩,
     by decide, rfl, by decide, by decide, ⟨[], rfl, rfl⟩, trivial⟩ 2 (by decide)
  exact h.1

/-! ## C5: well-formed link headers parse to exactly their rel/URL pairs -/

/-- The entry `<u>; rel="r"` as a character list. -/
def entryChars (u r : List Char) : List Char :=
  '<' :: (u ++ (relLit ++ (r ++ ['"'])))

/-- Join entries with the separator `", "` (Python
`', '.join(entries)`-style), the inverse of the split `parse_link_header`
performs. -/
def joinSep : List (List Char) → List Char
  | [] => []
  | [e] => e
  | e :: es => e ++ ',' :: ' ' :: joinSep es

/-- A well-formed URL/rel pair: the URL contains neither the group-closing
`>` nor a comma nor a newline, and the rel name additionally no `"`. A `>` or
`"` would move the greedy regex groups' boundaries; a comma could form a
`", "` that changes the split; a newline stops `.` in the regex. -/
def goodPair (u r : List Char) : Prop :=
  (∀ c ∈ u, c ≠ '>' ∧ c ≠ ',' ∧ c ≠ '\n') ∧
  (∀ c ∈ r, c ≠ '>' ∧ c ≠ '"' ∧ c ≠ ',' ∧ c ≠ '\n')

instance (u r : List Char) : Decidable (goodPair u r) := by
  unfold goodPair
  infer_instance

/-- A well-formed header: every pair is good and the rel names are distinct
(with a duplicated rel the Python dict would keep only the last URL). -/
def wellFormedPairs (ps : List (List Char × List Char)) : Prop :=
  (∀ p ∈ ps, goodPair p.1 p.2) ∧ (ps.map Prod.snd).Nodup

instance (ps : List (List Char × List Char)) : Decidable (wellFormedPairs ps) := by
  unfold wellFormedPairs
  infer_instance

/-- The header string built from the pairs. -/
def headerChars (ps : List (List Char × List Char)) : List Char :=
  joinSep (ps.map (fun p => entryChars p.1 p.2))

/-- A comma-free chunk is not split. -/
theorem splitCS_comma_free (e : List Char) (h : ∀ c ∈ e, c ≠ ',') :
    splitCS e = [e] := by
  induction e with
  | nil => rfl
  | cons c tail ih =>
    cases tail with
    | nil => rfl
    | cons d rest =>
      have hc : c ≠ ',' := h c (List.mem_cons_self c _)
      have hcd : ¬(c = ',' ∧ d = ' ') := fun hcd => hc hcd.1
      simp only [splitCS, if_neg hcd]
      rw [ih (fun x hx => h x (List.mem_cons_of_mem c hx))]

/-- Splitting a comma-free chunk followed by the separator peels the chunk. -/
theorem splitCS_sep (e t : List Char) (h : ∀ c ∈ e, c ≠ ',') :
    splitCS (e ++ ',' :: ' ' :: t) = e :: splitCS t := by
  have hsep : splitCS (',' :: ' ' :: t) = [] :: splitCS t := by
    simp [splitCS]
  induction e with
  | nil => exact hsep
  | cons c tail ih =>
    have hc : c ≠ ',' := h c (List.mem_cons_self c _)
    have ih' := ih (fun x hx => h x (List.mem_cons_of_mem c hx))
    cases tail with
    | nil =>
      show splitCS (c :: ',' :: ' ' :: t) = [c] :: splitCS t
      have hcd : ¬(c = ',' ∧ (',' : Char) = ' ') := fun hcd => absurd hcd.2 (by decide)
      simp [splitCS, if_neg hcd]
    | cons d rest =>
      show splitCS (c :: d :: (rest ++ ',' :: ' ' :: t)) = (c :: d :: rest) :: splitCS t
      have hcd : ¬(c = ',' ∧ d = ' ') := fun hcd => hc hcd.1
      simp only [splitCS, if_neg hcd]
      have ih2 : splitCS (d :: (rest ++ ',' :: ' ' :: t)) = (d :: rest) :: splitCS t := by
        simpa using ih'
      rw [ih2]

/-- Splitting the joined entries recovers them, when each is comma-free. -/
theorem splitCS_joinSep (es : List (List Char)) (hne : es ≠ [])
    (h : ∀ e ∈ es, ∀ c ∈ e, c ≠ ',') : splitCS (joinSep es) = es := by
  induction es with
  | nil => exact absurd rfl hne
  | cons e es ih =>
    cases es with
    | nil => exact splitCS_comma_free e (h e (List.mem_cons_self e _))
    | cons e2 es2 =>
      show splitCS (e ++ ',' :: ' ' :: joinSep (e2 :: es2)) = e :: e2 :: es2
      rw [splitCS_sep e _ (h e (List.mem_cons_self e _))]
      rw [ih (by simp) (fun x hx => h x (List.mem_cons_of_mem e hx))]

/-- `lastIdxOf` misses a character that is not there. -/
theorem lastIdxOf_eq_none (c : Char) (l : List Char) (h : ∀ x ∈ l, x ≠ c) :
    lastIdxOf c l = none := by
  induction l with
  | nil => rfl
  | cons a t ih =>
    simp only [lastIdxOf, ih (fun x hx => h x (List.mem_cons_of_mem a hx))]
    rw [if_neg (h a (List.mem_cons_self a t))]

/-- The last `"` of `r ++ ['"']` is the final one when `r` has none. -/
theorem lastIdxOf_append_quote (r : List Char) (h : ∀ x ∈ r, x ≠ '"') :
    lastIdxOf '"' (r ++ ['"']) = some r.length := by
  induction r with
  | nil => rfl
  | cons a t ih =>
    simp only [List.cons_append, lastIdxOf, List.append_eq,
      ih (fun x hx => h x (List.mem_cons_of_mem a hx)), List.length_cons]

/-- The greedy `(.*)"` against `r ++ ['"']` captures exactly `r` when `r` has
no quote and no newline. -/
theorem matchB_entry (r : List Char) (hr : ∀ c ∈ r, c ≠ '"' ∧ c ≠ '\n') :
    matchB (r ++ ['"']) = some r := by
  have htw : (r ++ ['"']).takeWhile (fun c => c ≠ '\n') = r ++ ['"'] := by
    rw [List.takeWhile_eq_self_iff]
    intro x hx
    simp only [decide_eq_true_eq]
    rcases List.mem_append.mp hx with h | h
    · exact (hr x h).2
    · simp only [List.mem_singleton] at h
      subst h
      decide
  simp only [matchB, htw, lastIdxOf_append_quote r (fun x hx => (hr x hx).1),
    Option.map_some']
  rw [List.take_left]

/-- Any position where the literal `>; rel="` can start holds the
character `>`. -/
theorem isPrefixOf_relLit_head (l : List Char) (h : relLit.isPrefixOf l = true) :
    l.head? = some '>' := by
  cases l with
  | nil => simp [relLit, List.isPrefixOf] at h
  | cons c t =>
    simp only [relLit, List.isPrefixOf_cons₂, Bool.and_eq_true, beq_iff_eq] at h
    rw [List.head?_cons, ← h.1]

/-- In the body `u ++ >; rel=" ++ r ++ "` of an entry with a good pair, the
only position holding `>` is `u.length`. -/
theorem gt_position_unique (u r : List Char)
    (hu : ∀ c ∈ u, c ≠ '>' ∧ c ≠ ',' ∧ c ≠ '\n')
    (hr : ∀ c ∈ r, c ≠ '>' ∧ c ≠ '"' ∧ c ≠ ',' ∧ c ≠ '\n')
    (q : Nat) (hq : q ≠ u.length) :
    (u ++ (relLit ++ (r ++ ['"'])))[q]? ≠ some '>' := by
  intro hcontra
  rw [List.getElem?_append] at hcontra
  split at hcontra
  · exact ((hu '>' (List.getElem?_mem hcontra)).1 rfl)
  · rename_i hq1
    rw [List.getElem?_append] at hcontra
    split at hcontra
    · rename_i hq2
      have hj1 : 1 ≤ q - u.length := by omega
      have hj8 : q - u.length < 8 := by simpa [relLit] using hq2
      set j := q - u.length with hj
      interval_cases j <;> exact absurd hcontra (by decide)
    · rw [List.getElem?_append] at hcontra
      split at hcontra
      · exact ((hr '>' (List.getElem?_mem hcontra)).1 rfl)
      · have h1 : '>' ∈ ['"'] := List.getElem?_mem hcontra
        simp at h1

/-- The candidate lengths for the greedy first group of the regex on a good
entry body: only `u.length` survives. -/
theorem candQs_entry (u r : List Char)
    (hu : ∀ c ∈ u, c ≠ '>' ∧ c ≠ ',' ∧ c ≠ '\n')
    (hr : ∀ c ∈ r, c ≠ '>' ∧ c ≠ '"' ∧ c ≠ ',' ∧ c ≠ '\n') :
    candQs (u ++ (relLit ++ (r ++ ['"']))) = [u.length] := by
  have htw : (u ++ (relLit ++ (r ++ ['"']))).takeWhile (fun c => c ≠ '\n') =
      u ++ (relLit ++ (r ++ ['"'])) := by
    rw [List.takeWhile_eq_self_iff]
    intro x hx
    simp only [decide_eq_true_eq]
    rcases List.mem_append.mp hx with h | h
    · exact (hu x h).2.2
    rcases List.mem_append.mp h with h | h
    · simp only [relLit] at h
      fin_cases h <;> decide
    rcases List.mem_append.mp h with h | h
    · exact (hr x h).2.2.2
    · simp only [List.mem_singleton] at h
      subst h
      decide
  have hPu : (relLit.isPrefixOf ((u ++ (relLit ++ (r ++ ['"']))).drop u.length) &&
      (matchB ((u ++ (relLit ++ (r ++ ['"']))).drop (u.length + relLit.length))).isSome)
      = true := by
    rw [List.drop_left]
    have hdrop : (u ++ (relLit ++ (r ++ ['"']))).drop (u.length + relLit.length) =
        r ++ ['"'] := by
      rw [show u.length + relLit.length = (u ++ relLit).length by simp,
        ← List.append_assoc, List.drop_left]
    rw [hdrop, matchB_entry r (fun c hc => ⟨(hr c hc).2.1, (hr c hc).2.2.2⟩)]
    simp only [Option.isSome_some, Bool.and_true]
    exact (List.isPrefixOf_iff_prefix).mpr (List.prefix_append _ _)
  unfold candQs
  rw [htw]
  have hlen : u.length < (u ++ (relLit ++ (r ++ ['"']))).length + 1 := by
    simp [List.length_append]
    omega
  generalize hn : (u ++ (relLit ++ (r ++ ['"']))).length + 1 = n at hlen
  clear hn
  induction n with
  | zero => omega
  | succ n ih =>
    rw [List.range_succ, List.filter_append]
    by_cases h : u.length < n
    · rw [ih h]
      have hfn : (relLit.isPrefixOf ((u ++ (relLit ++ (r ++ ['"']))).drop n) &&
          (matchB ((u ++ (relLit ++ (r ++ ['"']))).drop (n + relLit.length))).isSome)
          = false := by
        have hpre : relLit.isPrefixOf ((u ++ (relLit ++ (r ++ ['"']))).drop n) = false := by
          by_contra hcon
          have hpre' : relLit.isPrefixOf ((u ++ (relLit ++ (r ++ ['"']))).drop n) = true := by
            revert hcon
            cases relLit.isPrefixOf ((u ++ (relLit ++ (r ++ ['"']))).drop n) <;> simp
          have hhead := isPrefixOf_relLit_head _ hpre'
          rw [List.head?_drop] at hhead
          exact gt_position_unique u r hu hr n (by omega) hhead
        rw [hpre]
        rfl
      simp [hfn]
    · have hn : u.length = n := by omega
      subst hn
      have hempty : (List.range u.length).filter
          (fun q => relLit.isPrefixOf ((u ++ (relLit ++ (r ++ ['"']))).drop q) &&
            (matchB ((u ++ (relLit ++ (r ++ ['"']))).drop (q + relLit.length))).isSome)
          = [] := by
        rw [List.filter_eq_nil_iff]
        intro q hqmem
        have hqlt : q < u.length := List.mem_range.mp hqmem
        intro hcon
        simp only [Bool.and_eq_true] at hcon
        have hhead := isPrefixOf_relLit_head _ hcon.1
        rw [List.head?_drop] at hhead
        exact gt_position_unique u r hu hr q (by omega) hhead
      rw [hempty]
      have hB : matchB (r ++ ['"']) = some r :=
        matchB_entry r (fun c hc => ⟨(hr c hc).2.1, (hr c hc).2.2.2⟩)
      simp [hPu, hB]

/-- The regex match anchored at the `<` of a good entry captures `(u, r)`. -/
theorem matchLinkAt_entry (u r : List Char)
    (hu : ∀ c ∈ u, c ≠ '>' ∧ c ≠ ',' ∧ c ≠ '\n')
    (hr : ∀ c ∈ r, c ≠ '>' ∧ c ≠ '"' ∧ c ≠ ',' ∧ c ≠ '\n') :
    matchLinkAt (entryChars u r) = some (u, r) := by
  show ((candQs (u ++ (relLit ++ (r ++ ['"'])))).getLast?.bind fun q =>
      (matchB ((u ++ (relLit ++ (r ++ ['"']))).drop (q + relLit.length))).map
        fun b => ((u ++ (relLit ++ (r ++ ['"']))).take q, b)) = some (u, r)
  rw [candQs_entry u r hu hr, List.getLast?_singleton, Option.some_bind]
  have hdrop : (u ++ (relLit ++ (r ++ ['"']))).drop (u.length + relLit.length) =
      r ++ ['"'] := by
    rw [show u.length + relLit.length = (u ++ relLit).length by simp,
      ← List.append_assoc, List.drop_left]
  rw [hdrop, matchB_entry r (fun c hc => ⟨(hr c hc).2.1, (hr c hc).2.2.2⟩),
    Option.map_some', List.take_left]

/-- `re.search` on a good entry returns its URL and rel groups. -/
theorem searchLink_entry (u r : List Char)
    (hu : ∀ c ∈ u, c ≠ '>' ∧ c ≠ ',' ∧ c ≠ '\n')
    (hr : ∀ c ∈ r, c ≠ '>' ∧ c ≠ '"' ∧ c ≠ ',' ∧ c ≠ '\n') :
    searchLink (entryChars u r) = some (u, r) := by
  have h := matchLinkAt_entry u r hu hr
  simp only [entryChars] at h ⊢
  simp only [searchLink, h]

/-- Folding good entries into the dict appends each `(rel, url)` in order,
provided the rel names are distinct and fresh for the accumulator. -/
theorem parseEntries_entries (ps : List (List Char × List Char))
    (m : List (List Char × List Char))
    (hgood : ∀ p ∈ ps, goodPair p.1 p.2) (hnodup : (ps.map Prod.snd).Nodup)
    (hfresh : ∀ p ∈ ps, p.2 ∉ m.map Prod.fst) :
    parseEntries (ps.map (fun p => entryChars p.1 p.2)) m =
      some (m ++ ps.map (fun p => (p.2, p.1))) := by
  induction ps generalizing m with
  | nil => simp [parseEntries]
  | cons p ps ih =>
    obtain ⟨u, r⟩ := p
    have hg := hgood (u, r) (List.mem_cons_self _ _)
    simp only [List.map_cons, parseEntries, searchLink_entry u r hg.1 hg.2]
    have hins : dictInsert m r u = m ++ [(r, u)] := by
      unfold dictInsert
      rw [if_neg]
      intro hany
      rw [List.any_eq_true] at hany
      obtain ⟨x, hx, hx2⟩ := hany
      simp only [decide_eq_true_eq] at hx2
      exact hfresh (u, r) (List.mem_cons_self _ _)
        (hx2 ▸ List.mem_map_of_mem Prod.fst hx)
    rw [hins]
    have hnodup' : (ps.map Prod.snd).Nodup := (List.nodup_cons.mp hnodup).2
    have hrnot : r ∉ ps.map Prod.snd := (List.nodup_cons.mp hnodup).1
    have hfresh' : ∀ p ∈ ps, p.2 ∉ (m ++ [(r, u)]).map Prod.fst := by
      intro q hq
      rw [List.map_append, List.mem_append]
      rintro (hmem | hmem)
      · exact hfresh q (List.mem_cons_of_mem _ hq) hmem
      · simp only [List.map_cons, List.map_nil, List.mem_singleton] at hmem
        exact hrnot (hmem ▸ List.mem_map_of_mem Prod.snd hq)
    rw [ih (m ++ [(r, u)]) (fun q hq => hgood q (List.mem_cons_of_mem _ hq))
      hnodup' hfresh']
    simp

/-- C5: for every well-formed link header — the `", "`-separated join of
entries `<u>; rel="r"` over good pairs with distinct rel names —
`parse_link_header` returns exactly the embedded rel/URL pairs, in order; the
empty string and an absent (`None`) header each yield the empty mapping. -/
theorem parse_link_header_wellformed :
    (∀ (ps : List (List Char × List Char)) (s : String), wellFormedPairs ps →
      s.data = headerChars ps →
      parse_link_header (some s) = some (ps.map (fun p => (p.2, p.1)))) ∧
    parse_link_header (some "") = some [] ∧
    parse_link_header none = some [] := by
  refine ⟨?_, rfl, rfl⟩
  rintro ps s ⟨hgood, hnodup⟩ hdata
  cases ps with
  | nil =>
    have hempty : s.data = [] := hdata
    simp [parse_link_header, hempty]
  | cons p ps =>
    have hcomma : ∀ e ∈ (p :: ps).map (fun p => entryChars p.1 p.2),
        ∀ c ∈ e, c ≠ ',' := by
      intro e he c hc
      obtain ⟨q, hq, rfl⟩ := List.mem_map.mp he
      have hgq := hgood q hq
      simp only [entryChars, List.mem_cons, List.mem_append,
        List.mem_singleton] at hc
      rcases hc with rfl | hc | hc | hc | rfl | hc
      · decide
      · exact (hgq.1 c hc).2.1
      · simp only [relLit] at hc
        fin_cases hc <;> decide
      · exact (hgq.2 c hc).2.2.1
      · decide
      · exact absurd hc (List.not_mem_nil c)
    obtain ⟨l, hl⟩ : ∃ l, headerChars (p :: ps) = '<' :: l := by
      simp only [headerChars, List.map_cons]
      cases hps : ps.map (fun p => entryChars p.1 p.2) with
      | nil => exact ⟨_, rfl⟩
      | cons e es => exact ⟨_, rfl⟩
    have hne : ¬ s.data.isEmpty = true := by
      rw [hdata, hl]
      simp
    simp only [parse_link_header]
    rw [if_neg hne, hdata]
    simp only [headerChars]
    rw [splitCS_joinSep _ (by simp) hcomma]
    have h := parseEntries_entries (p :: ps) [] hgood hnodup (by simp)
    simpa using h

/-- Witness for C5 on the concrete header of the repository's own test. -/
theorem parse_link_header_wellformed_witness :
    parse_link_header (some "<https://a/p2>; rel=\"next\", <https://a/p34>; rel=\"last\"") =
      some [("next".data, "https://a/p2".data), ("last".data, "https://a/p34".data)] :=
  parse_link_header_wellformed.1
    [("https://a/p2".data, "next".data), ("https://a/p34".data, "last".data)]
    _ (by decide) (by decide)

end GithubSearch
